import Mathlib

/-!
Verification of the mitocheck_data glue code.

Part 1 embeds the extraction driver `1.idr_streams/streams/dp_streams.py`:
the dataset-name derivation, the per-iteration filesystem cleanup and the
parameters of the `run_dp_stream` call.

Part 2 embeds the plotting utilities `utils/analysis_utils.py`:
the palette-to-color-map derivation `get_class_colors` and the class-colored
UMAP plotting functions `show_1D_umap` / `show_2D_umap` / `show_3D_umap`
(which share one per-class loop verbatim, differing only in the number of
coordinate columns), plus `get_2D_umap_embeddings` and
`show_2D_umap_from_embeddings`.

Strings are Lean `String`s; Python dicts are association lists with Python's
insertion-order/update semantics; the external UMAP reducer is an abstract
parameter constrained only by its documented shape contract.
-/

/-! ## Part 1: the extraction driver (dp_streams.py) -/

/-- One step of Python `str.replace`: scan the text left to right, replacing
every non-overlapping occurrence of `pat` (assumed nonempty) by `rep`.
The fuel argument is initialized to the text length, which always suffices
because every step consumes at least one character of the text. -/
def replaceAux (pat rep : List Char) : Nat → List Char → List Char
  | _, [] => []
  | 0, s => s
  | fuel + 1, c :: cs =>
    if pat.isPrefixOf (c :: cs) then
      rep ++ replaceAux pat rep fuel (cs.drop (pat.length - 1))
    else
      c :: replaceAux pat rep fuel cs

/-- Python `s.replace(pat, rep)` (the empty-pattern case never occurs in this
repository, the driver always passes a fixed nonempty pattern). -/
def pythonReplace (s pat rep : String) : String :=
  if pat.data.isEmpty then s
  else String.mk (replaceAux pat.data rep.data s.data.length s.data)

/-- dp_streams.py line 39:
`data_name = data_locations_path.name.replace("_locations.tsv", "_data")`. -/
def data_name (file_name : String) : String :=
  pythonReplace file_name "_locations.tsv" "_data"

/-- Modelled from the spec: the contents of the locations directory
`0.locate_data/locations/` are not under src/; per the spec and the driver's
own comment the datasets present are the training, negative-control and
positive-control location tables. -/
def locationsDirFiles : List String :=
  ["negative_control_locations.tsv", "positive_control_locations.tsv",
   "training_locations.tsv"]

/-- The derivation exactly as the spec words it: strip the fixed suffix
`_locations.tsv` from the file name, then append the fixed replacement
`_data`. -/
def specDerivedName (file_name : String) : String :=
  String.mk (file_name.data.take (file_name.data.length - ("_locations.tsv").data.length))
    ++ "_data"

/-- A minimal filesystem state: the directories and files that exist.
Paths are plain strings; a path inside a directory tree is recognized by the
directory path being a string prefix of it. -/
structure FS where
  dirs : List String
  files : List String
deriving DecidableEq

/-- Whether path `p` lies in the tree rooted at `root` (string prefix test on
the character lists). -/
def pathStartsWith (root p : String) : Bool :=
  root.data.isPrefixOf p.data

/-- Python `shutil.rmtree(d)` without flags: removes the directory and
everything under it, raising `FileNotFoundError` when the directory is
absent. -/
def shutilRmtree (fs : FS) (d : String) : Except String FS :=
  if d ∈ fs.dirs then
    Except.ok
      { dirs := fs.dirs.filter (fun x => !(pathStartsWith d x)),
        files := fs.files.filter (fun x => !(pathStartsWith d x)) }
  else Except.error "FileNotFoundError"

/-- dp_streams.py line 45: `shutil.rmtree(tmp_dir, ignore_errors=True)` -
any error from the removal is swallowed. -/
def rmtreeIgnoreErrors (fs : FS) (d : String) : FS :=
  match shutilRmtree fs d with
  | Except.ok fs2 => fs2
  | Except.error _ => fs

/-- Python `Path.unlink(missing_ok)`: removes the file; with
`missing_ok=False` an absent file raises `FileNotFoundError`, with
`missing_ok=True` it is a no-op. -/
def unlinkFile (fs : FS) (f : String) (missing_ok : Bool) : Except String FS :=
  if f ∈ fs.files then
    Except.ok { fs with files := fs.files.filter (fun x => !(x == f)) }
  else if missing_ok then Except.ok fs
  else Except.error "FileNotFoundError"

/-- Python `Path.mkdir(exist_ok=True, parents=True)`: ensures the directory
exists, never raising. -/
def mkdirParents (fs : FS) (d : String) : FS :=
  { fs with dirs := if d ∈ fs.dirs then fs.dirs else fs.dirs ++ [d] }

/-- dp_streams.py line 49: the per-dataset log file path
`logs/{data_name}/dp_idrstream.log`. -/
def log_file_path (dn : String) : String :=
  "logs/" ++ dn ++ "/dp_idrstream.log"

/-- The filesystem after `unlinkFile fs f true` (which never raises). -/
def unlinkResult (fs : FS) (f : String) : FS :=
  if f ∈ fs.files then { fs with files := fs.files.filter (fun x => !(x == f)) }
  else fs

/-- dp_streams.py lines 43-53: the filesystem actions at the start of each
dataset iteration, in source order: remove the temp directory ignoring
errors, remove the log file with `missing_ok=True`, create the log file's
parent directory. -/
def iterationCleanup (fs : FS) (dn : String) : Except String FS := do
  let fs1 := rmtreeIgnoreErrors fs "tmp/"
  let fs2 ← unlinkFile fs1 (log_file_path dn) true
  pure (mkdirParents fs2 ("logs/" ++ dn))

/-- One iteration of the driver's dataset loop: derive the dataset name,
perform the cleanup, then hand the cleaned filesystem to the (external,
abstract) pipeline run. -/
def driverIteration (runStream : FS → String → FS) (fs : FS) (file_name : String) :
    Except String FS := do
  let dn := data_name file_name
  let fs2 ← iterationCleanup fs dn
  pure (runStream fs2 dn)

/-- The arguments of the `stream.run_dp_stream(...)` call. -/
structure RunCall where
  batch_size : Nat
  start_batch : Nat
  batch_nums : List Nat
  extra_metadata : Option (List String)
deriving DecidableEq

/-- dp_streams.py lines 79-92: the branch on the dataset name choosing the
`run_dp_stream` arguments. -/
def run_dp_stream_call (dn : String) : RunCall :=
  if dn = "training_data" then
    { batch_size := 3, start_batch := 0, batch_nums := [0],
      extra_metadata := some ["object_outlines"] }
  else
    { batch_size := 3, start_batch := 0, batch_nums := [0],
      extra_metadata := none }

/-! ## Part 2: the palette-to-color-map derivation (analysis_utils.py) -/

/-- An RGB color with 8-bit channels, the (rounded) value of one seaborn
palette entry; matplotlib's `rgb2hex` formats each channel as two lowercase
hex digits. -/
structure RGB where
  r : Fin 256
  g : Fin 256
  b : Fin 256
deriving DecidableEq

instance : Inhabited RGB := ⟨⟨0, 0, 0⟩⟩

/-- One lowercase hex digit, as Python `format(n, "02x")` produces
(digits `0`-`9` then letters `a`-`f`). -/
def toHexDigit (n : Nat) : Char :=
  if n < 10 then Char.ofNat (48 + n) else Char.ofNat (87 + n)

/-- The two lowercase hex digits of a byte. -/
def hexByte (n : Nat) : List Char :=
  [toHexDigit (n / 16), toHexDigit (n % 16)]

/-- matplotlib `rgb2hex`: the string `#rrggbb`. -/
def rgb2hex (c : RGB) : String :=
  String.mk ('#' :: (hexByte c.r.val ++ hexByte c.g.val ++ hexByte c.b.val))

/-- Recognizer for lowercase hex digit characters. -/
def isLowerHexDigit (c : Char) : Bool :=
  (('0' ≤ c) && (c ≤ '9')) || (('a' ≤ c) && (c ≤ 'f'))

/-- Recognizer for color strings of the exact form `#rrggbb`. -/
def isHexColorString (s : String) : Bool :=
  (s.data.length == 7) && (s.data.take 1 == ['#']) &&
    (s.data.drop 1).all isLowerHexDigit

/-- Python dict assignment `d[k] = v`: update in place at the existing key,
otherwise append the new key at the end (Python 3.7+ insertion order). -/
def dictInsert : List (String × String) → String → String → List (String × String)
  | [], k, v => [(k, v)]
  | p :: ps, k, v => if p.1 = k then (k, v) :: ps else p :: dictInsert ps k v

/-- analysis_utils.py lines 99-122 (`get_class_colors`): build the dict by
enumerating the class list and converting the palette entry at each index to
hex. The seaborn call `sns.color_palette(palette, len(classes_list))` is
modelled by the abstract parameter `palette`, the named palette queried at
size `classes_list.length` (seaborn guarantees the returned list has exactly
the requested length). -/
def get_class_colors (classes_list : List String) (palette : Nat → List RGB) :
    List (String × String) :=
  let cmap := palette classes_list.length
  classes_list.enum.foldl
    (fun class_colors p => dictInsert class_colors p.2 (rgb2hex (cmap.getD p.1 default)))
    []

/-- Position of the last occurrence of `name` in the list, counting from
index `i` for the head. -/
def lastIndexAux (name : String) : Nat → List String → Option Nat
  | _, [] => none
  | i, c :: cs =>
    match lastIndexAux name (i + 1) cs with
    | some j => some j
    | none => if c = name then some i else none

/-- Position of the last occurrence of `name` in `classes`. -/
def lastPositionOf (classes : List String) (name : String) : Option Nat :=
  lastIndexAux name 0 classes

/-! ## Part 3: the UMAP plotting functions (analysis_utils.py) -/

/-- A label value from the metadata series. -/
abbrev Label := String

/-- A display color (a hex string such as the fixed gray `#808080`). -/
abbrev Color := String

/-- One row of the internal embedding table built inside the show functions:
the UMAP coordinates of one observation paired with its metadata label.
Coordinate entries come from an abstract type `α` standing in for the
floating-point values, which no claim inspects arithmetically; the 1D
variant's random y-jitter column only spaces points vertically and is not
modelled. -/
abbrev Row (α : Type) := List α × Label

/-- pandas `Series.unique` on the label column: the distinct values in order
of first occurrence; `seen` accumulates the values already emitted. -/
def uniqAux : List Label → List Label → List Label
  | [], _ => []
  | x :: xs, seen => if x ∈ seen then uniqAux xs seen else x :: uniqAux xs (x :: seen)

/-- The `embedding[metadata_series.name].unique().tolist()` value. -/
def uniqueFirst (l : List Label) : List Label :=
  uniqAux l []

/-- The fixed gray assigned to classes absent from the color map. -/
def grayColor : Color := "#808080"

/-- The mutable state of the per-class loop shared verbatim by
`show_1D_umap`, `show_2D_umap` and `show_3D_umap`: the legend handles
accumulated so far, the `other_classes_exist` flag, the current value of
the mutable `color` variable, and the scatter calls issued so far (each
holding the coordinate rows it drew and the color it was given). -/
structure LoopState (α : Type) where
  legend_elements : List (Label × Color)
  other_classes_exist : Bool
  color : Color
  scatters : List (List (List α) × Color)
deriving DecidableEq

/-- One iteration of the per-class loop (analysis_utils.py lines 171-198,
271-298 and 373-401 are identical): select the rows of the current class;
if the class is a key of the color map set `color` to its color and append
a legend handle, otherwise set the flag and the fixed gray; then issue the
scatter call with the selected rows and `color`. -/
def classLoopStep (class_colors : List (Label × Color)) (rows : List (Row α))
    (st : LoopState α) (metadata_class : Label) : LoopState α :=
  let class_embedding := rows.filter (fun r => r.2 = metadata_class)
  match List.lookup metadata_class class_colors with
  | some c =>
    { legend_elements := st.legend_elements ++ [(metadata_class, c)]
      other_classes_exist := st.other_classes_exist
      color := c
      scatters := st.scatters ++ [(class_embedding.map Prod.fst, c)] }
  | none =>
    { legend_elements := st.legend_elements
      other_classes_exist := true
      color := grayColor
      scatters := st.scatters ++ [(class_embedding.map Prod.fst, grayColor)] }

/-- The figure produced by one class-colored show function: the scatter
calls in order and the final legend entries `(label, markerfacecolor)`. -/
structure RenderResult (α : Type) where
  scatters : List (List (List α) × Color)
  legend : List (Label × Color)
deriving DecidableEq

/-- The shared rendering body of the three class-colored show functions
(analysis_utils.py lines 163-224, 263-324, 365-428): loop over the distinct
label values in first-occurrence order, then append an `Other` legend entry
carrying the current value of the mutable `color` variable if any unmapped
class occurred. -/
def renderClassColored (rows : List (Row α)) (class_colors : List (Label × Color)) :
    RenderResult α :=
  let uniq := uniqueFirst (rows.map Prod.snd)
  let st := uniq.foldl (classLoopStep class_colors rows)
    { legend_elements := [], other_classes_exist := false, color := "", scatters := [] }
  { scatters := st.scatters
    legend :=
      if st.other_classes_exist then st.legend_elements ++ [("Other", st.color)]
      else st.legend_elements }

/-- The outcome of one show function: the internal embedding table, the
rendered figure, and the Python return value - column names and rows of the
returned DataFrame, `none` when the function returns `None`. -/
structure ShowOutcome (α : Type) where
  embeddingRows : List (Row α)
  render : RenderResult α
  retval : Option (List String × List (Row α))
deriving DecidableEq

/-- Building the embedding table
(`embedding[metadata_series.name] = metadata_series.tolist()`): pandas
raises when the assigned column's length differs from the DataFrame's row
count, modelled as `none`. -/
def mkRows (coords : List (List α)) (labels : List Label) : Option (List (Row α)) :=
  if coords.length = labels.length then some (coords.zip labels) else none

/-- analysis_utils.py lines 125-224 (`show_1D_umap`): embed with
`n_components=1`, attach the labels, render the class-colored figure and
return `None`. `umapFit k` models `umap.UMAP(random_state=0,
n_components=k).fit_transform`. -/
def show_1D_umap (umapFit : Nat → List (List α) → List (List α))
    (feature_data : List (List α)) (labels : List Label) (seriesName : String)
    (class_colors : List (Label × Color)) : Option (ShowOutcome α) :=
  (mkRows (umapFit 1 feature_data) labels).map (fun rows =>
    { embeddingRows := rows
      render := renderClassColored rows class_colors
      retval := none })

/-- analysis_utils.py lines 227-326 (`show_2D_umap`): embed with
`n_components=2`, attach the labels, render the class-colored figure and
return the embedding DataFrame - columns `UMAP1`, `UMAP2` and the metadata
series name (pandas would overwrite a coordinate column if the series were
named like one, in which case no third column is added). -/
def show_2D_umap (umapFit : Nat → List (List α) → List (List α))
    (feature_data : List (List α)) (labels : List Label) (seriesName : String)
    (class_colors : List (Label × Color)) : Option (ShowOutcome α) :=
  (mkRows (umapFit 2 feature_data) labels).map (fun rows =>
    { embeddingRows := rows
      render := renderClassColored rows class_colors
      retval := some (["UMAP1", "UMAP2"] ++
        (if seriesName = "UMAP1" ∨ seriesName = "UMAP2" then [] else [seriesName]),
        rows) })

/-- analysis_utils.py lines 329-428 (`show_3D_umap`): embed with
`n_components=3`, attach the labels, render the class-colored figure and
return `None`. -/
def show_3D_umap (umapFit : Nat → List (List α) → List (List α))
    (feature_data : List (List α)) (labels : List Label) (seriesName : String)
    (class_colors : List (Label × Color)) : Option (ShowOutcome α) :=
  (mkRows (umapFit 3 feature_data) labels).map (fun rows =>
    { embeddingRows := rows
      render := renderClassColored rows class_colors
      retval := none })

/-- analysis_utils.py lines 43-96 (`show_2D_umap_from_embeddings`): the
continuous-hue 2D variant renders through seaborn's palette machinery
(external) and falls off the end of the function body, so its Python return
value is `None`; only the return value is modelled. -/
def show_2D_umap_from_embeddings (x_data y_data : List α) (labels : List Label)
    (seriesName : String) : Option (List String × List (Row α)) :=
  none

/-- numpy transpose of an n-by-k matrix given as a list of length-k rows:
row j of the result is column j of the input. -/
def transposeN [Inhabited α] (k : Nat) (m : List (List α)) : List (List α) :=
  (List.range k).map (fun j => m.map (fun row => row.getD j default))

/-- analysis_utils.py lines 13-40 (`get_2D_umap_embeddings`): fit a
2-component embedding, transpose it, and return the first two rows of the
transpose as the x and y vectors. -/
def get_2D_umap_embeddings [Inhabited α] (umapFit : Nat → List (List α) → List (List α))
    (feature_data : List (List α)) : List α × List α :=
  let embedding := umapFit 2 feature_data
  let embeddingT := transposeN 2 embedding
  (embeddingT.getD 0 [], embeddingT.getD 1 [])

/-- A stand-in reducer used to instantiate witnesses: it sends each row to
the origin of the requested dimension, satisfying the shape contract of the
external UMAP implementation. -/
def umapStub (k : Nat) (X : List (List Nat)) : List (List Nat) :=
  X.map (fun _ => List.replicate k 0)

/-! ## Helper lemmas for Part 1 -/

theorem tmp_ne_logs_dir (s : String) : "tmp/" ≠ "logs/" ++ s := by
  intro h
  have h2 := congrArg String.length h
  rw [String.length_append] at h2
  have h3 : ("tmp/").length = 4 := rfl
  have h4 : ("logs/").length = 5 := rfl
  omega

theorem tmp_notMem_after_rmtree (fs : FS) :
    "tmp/" ∉ (rmtreeIgnoreErrors fs "tmp/").dirs := by
  unfold rmtreeIgnoreErrors shutilRmtree
  by_cases h : "tmp/" ∈ fs.dirs
  · rw [if_pos h]
    intro hmem
    have h2 := (List.mem_filter.mp hmem).2
    have hself : pathStartsWith "tmp/" "tmp/" = true := by decide
    rw [hself] at h2
    simp at h2
  · rw [if_neg h]
    exact h

theorem unlinkFile_true_eq (fs : FS) (f : String) :
    unlinkFile fs f true = Except.ok (unlinkResult fs f) := by
  unfold unlinkFile unlinkResult
  by_cases h : f ∈ fs.files <;> simp [h]

theorem unlinkResult_notMem (fs : FS) (f : String) :
    f ∉ (unlinkResult fs f).files := by
  unfold unlinkResult
  by_cases h : f ∈ fs.files
  · rw [if_pos h]
    intro hmem
    have h2 := (List.mem_filter.mp hmem).2
    simp at h2
  · rw [if_neg h]
    exact h

theorem unlinkResult_dirs (fs : FS) (f : String) :
    (unlinkResult fs f).dirs = fs.dirs := by
  unfold unlinkResult
  by_cases h : f ∈ fs.files <;> simp [h]

theorem iterationCleanup_eq (fs : FS) (dn : String) :
    iterationCleanup fs dn =
      Except.ok (mkdirParents
        (unlinkResult (rmtreeIgnoreErrors fs "tmp/") (log_file_path dn))
        ("logs/" ++ dn)) := by
  simp only [iterationCleanup, unlinkFile_true_eq]
  rfl

theorem cleanup_result (fs : FS) (dn : String) :
    ∃ fs2, iterationCleanup fs dn = Except.ok fs2 ∧
      "tmp/" ∉ fs2.dirs ∧ log_file_path dn ∉ fs2.files := by
  have htmp : "tmp/" ∉ (rmtreeIgnoreErrors fs "tmp/").dirs := tmp_notMem_after_rmtree fs
  refine ⟨_, iterationCleanup_eq fs dn, ?_, ?_⟩
  · simp only [mkdirParents]
    rw [unlinkResult_dirs]
    by_cases hd : ("logs/" ++ dn) ∈ (rmtreeIgnoreErrors fs "tmp/").dirs
    · simpa [hd] using htmp
    · simp only [hd, if_neg, not_false_iff, List.mem_append]
      rintro (hmem | hmem)
      · exact htmp hmem
      · exact tmp_ne_logs_dir dn (List.mem_singleton.mp hmem)
  · simpa only [mkdirParents] using
      unlinkResult_notMem (rmtreeIgnoreErrors fs "tmp/") (log_file_path dn)

/-! ## Claim theorems for Part 1 -/

/-- Claim C4: for every dataset location file name present in the locations
directory, the driver derives exactly one output dataset name, equal to the
file name with the fixed suffix `_locations.tsv` stripped and the fixed
replacement `_data` appended. -/
theorem data_name_spec (f : String) (hf : f ∈ locationsDirFiles) :
    data_name f = specDerivedName f := by
  simp only [locationsDirFiles, List.mem_cons, List.not_mem_nil, or_false] at hf
  rcases hf with h | h | h <;> subst h <;> decide

theorem data_name_spec_witness :
    ("training_locations.tsv" ∈ locationsDirFiles) ∧
      data_name "training_locations.tsv" = specDerivedName "training_locations.tsv" :=
  ⟨by decide, data_name_spec "training_locations.tsv" (by decide)⟩

/-- Claim C5: the `run_dp_stream` call requests the extra per-object metadata
`["object_outlines"]` exactly when the derived dataset name is
`training_data`; every other name gets no extra metadata; and the batching
parameters `batch_size=3`, `start_batch=0`, `batch_nums=[0]` are identical
in both branches. -/
theorem run_dp_stream_call_spec (dn : String) :
    ((run_dp_stream_call dn).extra_metadata = some ["object_outlines"] ↔
        dn = "training_data") ∧
      ((run_dp_stream_call dn).extra_metadata = none ↔ ¬dn = "training_data") ∧
      (run_dp_stream_call dn).batch_size = 3 ∧
      (run_dp_stream_call dn).start_batch = 0 ∧
      (run_dp_stream_call dn).batch_nums = [0] := by
  unfold run_dp_stream_call
  by_cases h : dn = "training_data" <;> simp [h]

/-- Claim C6: at the start of every dataset iteration, before the pipeline
run begins, the temp directory and the dataset's log file are removed; both
removals succeed on every filesystem state (in particular when the targets
are absent), and the pipeline run receives the cleaned state. -/
theorem iteration_cleanup_spec (runStream : FS → String → FS) (fs : FS) (f : String) :
    ∃ fs2, iterationCleanup fs (data_name f) = Except.ok fs2 ∧
      "tmp/" ∉ fs2.dirs ∧ log_file_path (data_name f) ∉ fs2.files ∧
      driverIteration runStream fs f = Except.ok (runStream fs2 (data_name f)) := by
  obtain ⟨fs2, hok, hd, hf⟩ := cleanup_result fs (data_name f)
  exact ⟨fs2, hok, hd, hf, by simp [driverIteration, hok]⟩

/-! ## Helper lemmas for Part 2: hex conversion -/

theorem toHexDigit_isHex : ∀ n : Fin 16, isLowerHexDigit (toHexDigit n.val) = true := by
  decide

theorem toHexDigit_inj16 : ∀ a b : Fin 16, toHexDigit a.val = toHexDigit b.val → a = b := by
  decide

theorem hexByte_isHex (n : Nat) (hn : n < 256) :
    (hexByte n).all isLowerHexDigit = true := by
  have h1 : n / 16 < 16 := by omega
  have h2 : n % 16 < 16 := by omega
  have a1 := toHexDigit_isHex ⟨n / 16, h1⟩
  have a2 := toHexDigit_isHex ⟨n % 16, h2⟩
  simp only [hexByte, List.all_cons, List.all_nil, Bool.and_true]
  rw [a1, a2]
  rfl

theorem hexByte_inj (m n : Nat) (hm : m < 256) (hn : n < 256)
    (h : hexByte m = hexByte n) : m = n := by
  simp only [hexByte, List.cons.injEq, and_true] at h
  obtain ⟨h1, h2⟩ := h
  have e1 := toHexDigit_inj16 ⟨m / 16, by omega⟩ ⟨n / 16, by omega⟩ h1
  have e2 := toHexDigit_inj16 ⟨m % 16, by omega⟩ ⟨n % 16, by omega⟩ h2
  have v1 := congrArg Fin.val e1
  have v2 := congrArg Fin.val e2
  simp only [] at v1 v2
  omega

theorem rgb2hex_isHexColor (c : RGB) : isHexColorString (rgb2hex c) = true := by
  have ar := hexByte_isHex c.r.val c.r.isLt
  have ag := hexByte_isHex c.g.val c.g.isLt
  have ab := hexByte_isHex c.b.val c.b.isLt
  simp only [isHexColorString, rgb2hex]
  simp only [List.length_cons, List.length_append, List.take_cons, List.drop_succ_cons,
    List.drop_zero, List.all_append, List.take_zero]
  rw [ar, ag, ab]
  simp [hexByte]

theorem rgb2hex_inj : Function.Injective rgb2hex := by
  rintro ⟨r, g, b⟩ ⟨r2, g2, b2⟩ h
  have h0 : ('#' :: (hexByte r.val ++ hexByte g.val ++ hexByte b.val)) =
      ('#' :: (hexByte r2.val ++ hexByte g2.val ++ hexByte b2.val)) :=
    congrArg String.data h
  rw [List.cons.injEq] at h0
  have h1 : hexByte r.val ++ (hexByte g.val ++ hexByte b.val) =
      hexByte r2.val ++ (hexByte g2.val ++ hexByte b2.val) := by
    rw [← List.append_assoc, ← List.append_assoc]
    exact h0.2
  obtain ⟨hA, hBC⟩ := List.append_inj h1 rfl
  obtain ⟨hB, hC⟩ := List.append_inj hBC rfl
  have e1 := hexByte_inj r.val r2.val r.isLt r2.isLt hA
  have e2 := hexByte_inj g.val g2.val g.isLt g2.isLt hB
  have e3 := hexByte_inj b.val b2.val b.isLt b2.isLt hC
  simp only [RGB.mk.injEq, Fin.ext_iff]
  exact ⟨e1, e2, e3⟩

/-! ## Helper lemmas for Part 2: the dict model -/

theorem lookup_dictInsert_self (d : List (String × String)) (k v : String) :
    List.lookup k (dictInsert d k v) = some v := by
  induction d with
  | nil => simp [dictInsert, List.lookup_cons]
  | cons p ps ih =>
    by_cases h : p.1 = k
    · simp [dictInsert, h, List.lookup_cons]
    · have hne : (k == p.1) = false := by
        simp only [beq_eq_false_iff_ne, ne_eq]
        exact fun e => h e.symm
      simp only [dictInsert, h, if_neg, not_false_iff]
      rw [show (p :: dictInsert ps k v).lookup k =
        match k == p.1 with
        | true => some p.2
        | false => (dictInsert ps k v).lookup k from rfl]
      rw [hne]
      exact ih

theorem dictInsert_cons_eq (p1 p2 k v : String) (ps : List (String × String))
    (h : p1 = k) : dictInsert ((p1, p2) :: ps) k v = (k, v) :: ps := by
  simp [dictInsert, h]

theorem dictInsert_cons_ne (p1 p2 k v : String) (ps : List (String × String))
    (h : ¬(p1 = k)) :
    dictInsert ((p1, p2) :: ps) k v = (p1, p2) :: dictInsert ps k v := by
  simp [dictInsert, h]

theorem lookup_dictInsert_ne (d : List (String × String)) (k v k2 : String)
    (h : k2 ≠ k) : List.lookup k2 (dictInsert d k v) = List.lookup k2 d := by
  have hne : (k2 == k) = false := by simpa using h
  induction d with
  | nil => simp [dictInsert, List.lookup_cons, hne]
  | cons p ps ih =>
    obtain ⟨p1, p2⟩ := p
    by_cases hp : p1 = k
    · subst hp
      rw [dictInsert_cons_eq _ _ _ _ _ rfl, List.lookup_cons, List.lookup_cons, hne]
    · rw [dictInsert_cons_ne p1 p2 k v ps hp, List.lookup_cons, List.lookup_cons]
      cases hc : (k2 == p1) with
      | true => rfl
      | false => rw [ih]

theorem mem_keys_dictInsert (d : List (String × String)) (k v a : String) :
    a ∈ (dictInsert d k v).map Prod.fst ↔ a = k ∨ a ∈ d.map Prod.fst := by
  induction d with
  | nil => simp [dictInsert]
  | cons p ps ih =>
    by_cases h : p.1 = k
    · subst h
      simp [dictInsert]
    · simp only [dictInsert, h, if_neg, not_false_iff, List.map_cons, List.mem_cons, ih]
      tauto

theorem keys_nodup_dictInsert (d : List (String × String)) (k v : String)
    (h : (d.map Prod.fst).Nodup) : ((dictInsert d k v).map Prod.fst).Nodup := by
  induction d with
  | nil => simp [dictInsert]
  | cons p ps ih =>
    rw [List.map_cons, List.nodup_cons] at h
    by_cases hp : p.1 = k
    · subst hp
      simpa [dictInsert] using h
    · simp only [dictInsert, hp, if_neg, not_false_iff, List.map_cons, List.nodup_cons]
      constructor
      · rw [mem_keys_dictInsert]
        rintro (e | e)
        · exact hp e
        · exact h.1 e
      · exact ih h.2

theorem dictInsert_eq_append (d : List (String × String)) (k v : String)
    (h : k ∉ d.map Prod.fst) : dictInsert d k v = d ++ [(k, v)] := by
  induction d with
  | nil => rfl
  | cons p ps ih =>
    rw [List.map_cons, List.mem_cons] at h
    push_neg at h
    have hp : ¬(p.1 = k) := fun e => h.1 e.symm
    simp only [dictInsert, hp, if_neg, not_false_iff, List.cons_append, List.cons.injEq,
      true_and]
    exact ih h.2

theorem foldl_dictInsert_lookup (f : Nat → String) (k : String) :
    ∀ (cs : List String) (n : Nat) (acc : List (String × String)),
      List.lookup k ((cs.enumFrom n).foldl (fun a p => dictInsert a p.2 (f p.1)) acc) =
        match lastIndexAux k n cs with
        | some i => some (f i)
        | none => List.lookup k acc := by
  intro cs
  induction cs with
  | nil => intro n acc; simp [lastIndexAux]
  | cons c rest ih =>
    intro n acc
    rw [List.enumFrom_cons, List.foldl_cons, ih (n + 1)]
    cases hl : lastIndexAux k (n + 1) rest with
    | some j => simp [lastIndexAux, hl]
    | none =>
      simp only [lastIndexAux, hl]
      by_cases hc : c = k
      · subst hc
        simp [lookup_dictInsert_self]
      · have hkc : k ≠ c := fun e => hc e.symm
        simp [hc, lookup_dictInsert_ne _ _ _ _ hkc]

theorem lastIndexAux_of_notMem (k : String) :
    ∀ (cs : List String) (n : Nat), k ∉ cs → lastIndexAux k n cs = none := by
  intro cs
  induction cs with
  | nil => intro n _; rfl
  | cons c rest ih =>
    intro n h
    rw [List.mem_cons] at h
    push_neg at h
    have hc : ¬(c = k) := fun e => h.1 e.symm
    simp [lastIndexAux, ih (n + 1) h.2, hc]

theorem lastIndexAux_isSome_of_mem (k : String) :
    ∀ (cs : List String) (n : Nat), k ∈ cs → ∃ j, lastIndexAux k n cs = some j := by
  intro cs
  induction cs with
  | nil => intro n h; cases h
  | cons c rest ih =>
    intro n h
    by_cases hr : k ∈ rest
    · obtain ⟨j, hj⟩ := ih (n + 1) hr
      exact ⟨j, by simp [lastIndexAux, hj]⟩
    · have hc : c = k := by
        rcases List.mem_cons.mp h with e | e
        · exact e.symm
        · exact absurd e hr
      refine ⟨n, ?_⟩
      simp [lastIndexAux, lastIndexAux_of_notMem k rest (n + 1) hr, hc]

theorem lastIndexAux_nodup_get :
    ∀ (cs : List String), cs.Nodup → ∀ (i : Nat) (h : i < cs.length) (n : Nat),
      lastIndexAux (cs.get ⟨i, h⟩) n cs = some (n + i) := by
  intro cs
  induction cs with
  | nil =>
    intro _ i h
    exact absurd h (by simp)
  | cons c rest ih =>
    intro hn i h n
    rw [List.nodup_cons] at hn
    cases i with
    | zero =>
      simp only [List.get]
      simp [lastIndexAux, lastIndexAux_of_notMem c rest (n + 1) hn.1]
    | succ j =>
      have h2 : j < rest.length := by simpa using h
      have hget : (c :: rest).get ⟨j + 1, h⟩ = rest.get ⟨j, h2⟩ := rfl
      rw [hget]
      simp only [lastIndexAux]
      rw [ih hn.2 j h2 (n + 1)]
      show some (n + 1 + j) = some (n + (j + 1))
      exact congrArg some (by omega)

theorem foldl_dictInsert_fresh (f : Nat → String) :
    ∀ (l : List (Nat × String)) (acc : List (String × String)),
      (l.map Prod.snd).Nodup → (∀ p ∈ l, p.2 ∉ acc.map Prod.fst) →
      l.foldl (fun a p => dictInsert a p.2 (f p.1)) acc =
        acc ++ l.map (fun p => (p.2, f p.1)) := by
  intro l
  induction l with
  | nil => intro acc _ _; simp
  | cons p rest ih =>
    intro acc hnd hfresh
    rw [List.map_cons, List.nodup_cons] at hnd
    rw [List.foldl_cons, dictInsert_eq_append _ _ _ (hfresh p (List.mem_cons_self p rest))]
    rw [ih (acc ++ [(p.2, f p.1)]) hnd.2 ?_]
    · rw [List.map_cons, List.append_assoc, List.singleton_append]
    · intro q hq
      rw [List.map_append, List.mem_append]
      push_neg
      constructor
      · exact hfresh q (List.mem_cons_of_mem p hq)
      · simp only [List.map_cons, List.map_nil, List.mem_singleton]
        intro e
        exact hnd.1 (e ▸ List.mem_map_of_mem Prod.snd hq)

theorem foldl_dictInsert_mem_keys (f : Nat → String) :
    ∀ (l : List (Nat × String)) (acc : List (String × String)) (a : String),
      (a ∈ ((l.foldl (fun d p => dictInsert d p.2 (f p.1)) acc).map Prod.fst)) ↔
        a ∈ l.map Prod.snd ∨ a ∈ acc.map Prod.fst := by
  intro l
  induction l with
  | nil => intro acc a; simp
  | cons p rest ih =>
    intro acc a
    rw [List.foldl_cons, ih, mem_keys_dictInsert, List.map_cons, List.mem_cons]
    tauto

theorem foldl_dictInsert_keys_nodup (f : Nat → String) :
    ∀ (l : List (Nat × String)) (acc : List (String × String)),
      ((acc.map Prod.fst).Nodup) →
      (((l.foldl (fun d p => dictInsert d p.2 (f p.1)) acc).map Prod.fst).Nodup) := by
  intro l
  induction l with
  | nil => intro acc h; exact h
  | cons p rest ih =>
    intro acc h
    rw [List.foldl_cons]
    exact ih _ (keys_nodup_dictInsert _ _ _ h)

theorem map_getD_range (L : List RGB) :
    (List.range L.length).map (fun i => L.getD i default) = L := by
  induction L with
  | nil => simp
  | cons x xs ih =>
    have he : (List.range xs.length).map ((fun i => (x :: xs).getD i default) ∘ Nat.succ) =
        (List.range xs.length).map (fun i => xs.getD i default) := by
      apply List.map_congr_left
      intro i _
      rfl
    rw [List.length_cons, List.range_succ_eq_map, List.map_cons, List.map_map, he, ih]
    rfl

/-! ## Claim theorems for the color-map derivation -/

/-- Counterexample to claim C1 as stated: for the 2-name class list
`["a", "a"]` and a palette of matching size 2 with distinct colors, the
returned mapping does not have 2 entries (the duplicate key collapses). -/
theorem get_class_colors_dup_counterexample :
    ([(⟨0, 0, 0⟩ : RGB), ⟨255, 255, 255⟩].length = (["a", "a"] : List String).length) ∧
      ([(⟨0, 0, 0⟩ : RGB), ⟨255, 255, 255⟩].Nodup) ∧
      (get_class_colors ["a", "a"] (fun _ => [⟨0, 0, 0⟩, ⟨255, 255, 255⟩])).length ≠
        (["a", "a"] : List String).length := by
  decide

/-- Claim C1 (amended: the class names must be distinct; with a duplicated
name the mapping has fewer than N entries, see the counterexample): for
every list of N distinct class names and every palette of size N with
distinct colors, `get_class_colors` returns a mapping with exactly N
entries, each value a hex color string of the form `#rrggbb`, each class
assigned the palette color at its position in the input list, and no two
classes mapped to the same color. -/
theorem get_class_colors_spec (classes : List String) (palette : Nat → List RGB)
    (hnd : classes.Nodup)
    (hlen : (palette classes.length).length = classes.length)
    (hpal : (palette classes.length).Nodup) :
    (get_class_colors classes palette).length = classes.length ∧
      (∀ pr ∈ get_class_colors classes palette, isHexColorString pr.2 = true) ∧
      (∀ (i : Nat) (h : i < classes.length),
        List.lookup (classes.get ⟨i, h⟩) (get_class_colors classes palette) =
          some (rgb2hex ((palette classes.length).getD i default))) ∧
      ((get_class_colors classes palette).map Prod.snd).Nodup := by
  set cmap := palette classes.length with hcmap
  have hunfold : get_class_colors classes palette =
      classes.enum.foldl
        (fun d p => dictInsert d p.2 (rgb2hex (cmap.getD p.1 default))) [] := rfl
  have hsnd : classes.enum.map Prod.snd = classes := by
    rw [List.enum_eq_enumFrom, List.enumFrom_map_snd]
  have hfresh : get_class_colors classes palette =
      classes.enum.map (fun p => (p.2, rgb2hex (cmap.getD p.1 default))) := by
    rw [hunfold,
      foldl_dictInsert_fresh (fun i => rgb2hex (cmap.getD i default)) classes.enum []
        (by rw [hsnd]; exact hnd) (by intro p _; simp)]
    simp
  refine ⟨?_, ?_, ?_, ?_⟩
  · rw [hfresh, List.length_map, List.enum_eq_enumFrom, List.enumFrom_length]
  · intro pr hpr
    rw [hfresh] at hpr
    obtain ⟨p, _, rfl⟩ := List.mem_map.mp hpr
    exact rgb2hex_isHexColor _
  · intro i h
    rw [hunfold, List.enum_eq_enumFrom,
      foldl_dictInsert_lookup (fun j => rgb2hex (cmap.getD j default))
        (classes.get ⟨i, h⟩) classes 0 []]
    rw [lastIndexAux_nodup_get classes hnd i h 0]
    show some (rgb2hex (cmap.getD (0 + i) default)) = some (rgb2hex (cmap.getD i default))
    rw [Nat.zero_add]
  · rw [hfresh]
    have hcomp :
        (classes.enum.map (fun p => (p.2, rgb2hex (cmap.getD p.1 default)))).map Prod.snd =
          (classes.enum.map Prod.fst).map (fun i => rgb2hex (cmap.getD i default)) := by
      rw [List.map_map, List.map_map]
      rfl
    rw [hcomp, List.enum_eq_enumFrom, List.enumFrom_map_fst,
      (List.range_eq_range' classes.length).symm, ← hlen]
    have hmaps : (List.range cmap.length).map (fun i => rgb2hex (cmap.getD i default)) =
        cmap.map rgb2hex := by
      rw [show (fun i => rgb2hex (cmap.getD i default)) =
        rgb2hex ∘ (fun i => cmap.getD i default) from rfl]
      rw [← List.map_map, map_getD_range]
    rw [hmaps]
    exact hpal.map rgb2hex_inj

theorem get_class_colors_spec_witness :
    (["a", "b"] : List String).Nodup ∧
      (get_class_colors ["a", "b"] (fun _ => [⟨0, 0, 0⟩, ⟨255, 255, 255⟩])).length = 2 := by
  refine ⟨by decide, ?_⟩
  have h := get_class_colors_spec ["a", "b"] (fun _ => [⟨0, 0, 0⟩, ⟨255, 255, 255⟩])
    (by decide) (by decide) (by decide)
  simpa using h.1

/-- Claim C9: with a duplicated class name the mapping has fewer entries
than the input length - one entry per distinct name (the key list has no
duplicates and holds exactly the names of the input) - and each name is
mapped to the palette color of its last position in the input list. -/
theorem get_class_colors_duplicate_spec (classes : List String) (palette : Nat → List RGB)
    (hdup : ¬classes.Nodup) :
    (get_class_colors classes palette).length < classes.length ∧
      ((get_class_colors classes palette).map Prod.fst).Nodup ∧
      (∀ a, a ∈ (get_class_colors classes palette).map Prod.fst ↔ a ∈ classes) ∧
      (∀ name ∈ classes, ∃ i, lastPositionOf classes name = some i ∧
        List.lookup name (get_class_colors classes palette) =
          some (rgb2hex ((palette classes.length).getD i default))) := by
  set cmap := palette classes.length with hcmap
  have hunfold : get_class_colors classes palette =
      classes.enum.foldl
        (fun d p => dictInsert d p.2 (rgb2hex (cmap.getD p.1 default))) [] := rfl
  have hsnd : classes.enum.map Prod.snd = classes := by
    rw [List.enum_eq_enumFrom, List.enumFrom_map_snd]
  have hkeys_nodup : ((get_class_colors classes palette).map Prod.fst).Nodup := by
    rw [hunfold]
    exact foldl_dictInsert_keys_nodup (fun i => rgb2hex (cmap.getD i default))
      classes.enum [] (by simp)
  have hmem : ∀ a, a ∈ (get_class_colors classes palette).map Prod.fst ↔ a ∈ classes := by
    intro a
    rw [hunfold,
      foldl_dictInsert_mem_keys (fun i => rgb2hex (cmap.getD i default)) classes.enum [] a,
      hsnd]
    simp
  refine ⟨?_, hkeys_nodup, hmem, ?_⟩
  · have hlenmap : ((get_class_colors classes palette).map Prod.fst).length =
        (get_class_colors classes palette).length :=
      List.length_map _ _
    have hperm : ((get_class_colors classes palette).map Prod.fst).Perm classes.dedup := by
      rw [List.perm_ext_iff_of_nodup hkeys_nodup (List.nodup_dedup classes)]
      intro a
      rw [hmem, List.mem_dedup]
    have hdlen := hperm.length_eq
    have hsub := List.dedup_sublist classes
    have hle := hsub.length_le
    have hne : classes.dedup ≠ classes := fun e => hdup (List.dedup_eq_self.mp e)
    have hlt : classes.dedup.length < classes.length :=
      lt_of_le_of_ne hle (fun e => hne (hsub.eq_of_length e))
    omega
  · intro name hname
    obtain ⟨j, hj⟩ := lastIndexAux_isSome_of_mem name classes 0 hname
    refine ⟨j, hj, ?_⟩
    rw [hunfold, List.enum_eq_enumFrom,
      foldl_dictInsert_lookup (fun i => rgb2hex (cmap.getD i default)) name classes 0 [],
      hj]

theorem get_class_colors_duplicate_spec_witness :
    ¬(["a", "b", "a"] : List String).Nodup ∧
      (get_class_colors ["a", "b", "a"]
        (fun _ => [⟨0, 0, 0⟩, ⟨1, 1, 1⟩, ⟨2, 2, 2⟩])).length < 3 := by
  refine ⟨by decide, ?_⟩
  have h := get_class_colors_duplicate_spec ["a", "b", "a"]
    (fun _ => [⟨0, 0, 0⟩, ⟨1, 1, 1⟩, ⟨2, 2, 2⟩]) (by decide)
  simpa using h.1

/-! ## Helper lemmas for Part 3: first-occurrence unique values -/

theorem mem_uniqAux (x : Label) :
    ∀ (l seen : List Label), x ∈ uniqAux l seen ↔ x ∈ l ∧ x ∉ seen := by
  intro l
  induction l with
  | nil => intro seen; simp [uniqAux]
  | cons a l ih =>
    intro seen
    by_cases h : a ∈ seen
    · rw [show uniqAux (a :: l) seen = uniqAux l seen from by simp [uniqAux, h]]
      rw [ih seen]
      constructor
      · rintro ⟨hx, hs⟩
        exact ⟨List.mem_cons_of_mem a hx, hs⟩
      · rintro ⟨hx, hs⟩
        rcases List.mem_cons.mp hx with e | e
        · exact absurd (e ▸ h) hs
        · exact ⟨e, hs⟩
    · rw [show uniqAux (a :: l) seen = a :: uniqAux l (a :: seen) from by simp [uniqAux, h]]
      rw [List.mem_cons, ih (a :: seen)]
      constructor
      · rintro (e | ⟨hx, hs⟩)
        · subst e
          exact ⟨List.mem_cons_self x l, h⟩
        · rw [List.mem_cons] at hs
          push_neg at hs
          exact ⟨List.mem_cons_of_mem a hx, hs.2⟩
      · rintro ⟨hx, hs⟩
        by_cases hxa : x = a
        · exact Or.inl hxa
        · rcases List.mem_cons.mp hx with e | e
          · exact absurd e hxa
          · refine Or.inr ⟨e, ?_⟩
            rw [List.mem_cons]
            push_neg
            exact ⟨hxa, hs⟩

theorem nodup_uniqAux : ∀ (l seen : List Label), (uniqAux l seen).Nodup := by
  intro l
  induction l with
  | nil => intro seen; simp [uniqAux]
  | cons a l ih =>
    intro seen
    by_cases h : a ∈ seen
    · rw [show uniqAux (a :: l) seen = uniqAux l seen from by simp [uniqAux, h]]
      exact ih seen
    · rw [show uniqAux (a :: l) seen = a :: uniqAux l (a :: seen) from by simp [uniqAux, h]]
      rw [List.nodup_cons]
      refine ⟨?_, ih (a :: seen)⟩
      rw [mem_uniqAux]
      rintro ⟨-, hs⟩
      exact hs (List.mem_cons_self a seen)

theorem mem_uniqueFirst (x : Label) (l : List Label) : x ∈ uniqueFirst l ↔ x ∈ l := by
  rw [uniqueFirst, mem_uniqAux]
  simp

theorem nodup_uniqueFirst (l : List Label) : (uniqueFirst l).Nodup :=
  nodup_uniqAux l []

/-! ## Helper lemmas for Part 3: the per-class loop -/

theorem classLoop_foldl {α : Type} (cc : List (Label × Color)) (rows : List (Row α)) :
    ∀ (uniq : List Label) (st : LoopState α),
      uniq.foldl (classLoopStep cc rows) st =
        { legend_elements := st.legend_elements ++
            (uniq.filter (fun c => (List.lookup c cc).isSome)).map
              (fun c => (c, (List.lookup c cc).getD grayColor)),
          other_classes_exist :=
            st.other_classes_exist || uniq.any (fun c => (List.lookup c cc).isNone),
          color := uniq.foldl (fun _ c => (List.lookup c cc).getD grayColor) st.color,
          scatters := st.scatters ++ uniq.map (fun c =>
            ((rows.filter (fun r => r.2 = c)).map Prod.fst,
              (List.lookup c cc).getD grayColor)) } := by
  intro uniq
  induction uniq with
  | nil =>
    intro st
    simp
  | cons c rest ih =>
    intro st
    rw [List.foldl_cons, ih]
    cases hc : List.lookup c cc with
    | some col =>
      simp [classLoopStep, hc, List.filter_cons, List.any_cons, List.foldl_cons,
        List.append_assoc]
    | none =>
      simp [classLoopStep, hc, List.filter_cons, List.any_cons, List.foldl_cons,
        List.append_assoc]

theorem renderClassColored_eq {α : Type} (rows : List (Row α)) (cc : List (Label × Color)) :
    renderClassColored rows cc =
      { scatters := (uniqueFirst (rows.map Prod.snd)).map (fun c =>
          ((rows.filter (fun r => r.2 = c)).map Prod.fst,
            (List.lookup c cc).getD grayColor)),
        legend :=
          ((uniqueFirst (rows.map Prod.snd)).filter
              (fun c => (List.lookup c cc).isSome)).map
            (fun c => (c, (List.lookup c cc).getD grayColor)) ++
          (if (uniqueFirst (rows.map Prod.snd)).any (fun c => (List.lookup c cc).isNone)
            then [("Other",
              (uniqueFirst (rows.map Prod.snd)).foldl
                (fun _ c => (List.lookup c cc).getD grayColor) "")]
            else []) } := by
  simp only [renderClassColored]
  rw [classLoop_foldl cc rows]
  by_cases h : (uniqueFirst (rows.map Prod.snd)).any (fun c => (List.lookup c cc).isNone)
  · simp [h]
  · simp [h]

/-! ## Helper lemmas for Part 3: legend and partition facts -/

theorem render_other_iff {α : Type} (rows : List (Row α)) (cc : List (Label × Color))
    (h : "Other" ∉ rows.map Prod.snd) :
    ("Other" ∈ (renderClassColored rows cc).legend.map Prod.fst) ↔
      ∃ l ∈ rows.map Prod.snd, List.lookup l cc = none := by
  rw [renderClassColored_eq]
  simp only [List.map_append, List.mem_append]
  constructor
  · rintro (hm | hm)
    · exfalso
      rw [List.map_map] at hm
      obtain ⟨c, hcf, hce⟩ := List.mem_map.mp hm
      simp only [Function.comp] at hce
      subst hce
      exact h ((mem_uniqueFirst _ _).mp (List.mem_of_mem_filter hcf))
    · by_cases hany :
        (uniqueFirst (rows.map Prod.snd)).any fun c => (List.lookup c cc).isNone
      · obtain ⟨l, hl, hnone⟩ := List.any_eq_true.mp hany
        refine ⟨l, (mem_uniqueFirst _ _).mp hl, ?_⟩
        simpa using hnone
      · simp [hany] at hm
  · rintro ⟨l, hl, hnone⟩
    right
    have hlu : l ∈ uniqueFirst (rows.map Prod.snd) := (mem_uniqueFirst _ _).mpr hl
    have hany :
        ((uniqueFirst (rows.map Prod.snd)).any fun c => (List.lookup c cc).isNone) = true :=
      List.any_eq_true.mpr ⟨l, hlu, by simp [hnone]⟩
    simp [hany]

theorem filters_flatten_perm {α : Type} :
    ∀ (uniq : List Label) (rows : List (Row α)),
      uniq.Nodup → (∀ r ∈ rows, r.2 ∈ uniq) →
      ((uniq.map (fun c => rows.filter (fun r => r.2 = c))).flatten).Perm rows := by
  intro uniq
  induction uniq with
  | nil =>
    intro rows _ hcov
    have hrows : rows = [] := by
      cases rows with
      | nil => rfl
      | cons r rs => exact absurd (hcov r (List.mem_cons_self r rs)) (List.not_mem_nil r.2)
    subst hrows
    simp
  | cons c rest ih =>
    intro rows hnd hcov
    rw [List.nodup_cons] at hnd
    rw [List.map_cons, List.flatten_cons]
    have hmapeq : rest.map (fun c2 => rows.filter (fun r => r.2 = c2)) =
        rest.map (fun c2 =>
          (rows.filter (fun r => !decide (r.2 = c))).filter (fun r => r.2 = c2)) := by
      apply List.map_congr_left
      intro c2 hc2
      rw [List.filter_filter]
      apply List.filter_congr
      intro r _
      have hcc : ¬c2 = c := fun e => hnd.1 (e ▸ hc2)
      by_cases hrc : r.2 = c2
      · have hne : ¬(r.2 = c) := by
          rw [hrc]
          exact hcc
        simp [hrc, hne, hcc]
      · simp [hrc]
    have hcov2 : ∀ r ∈ rows.filter (fun r => !decide (r.2 = c)), r.2 ∈ rest := by
      intro r hr
      rw [List.mem_filter] at hr
      have hr2 := hcov r hr.1
      rw [List.mem_cons] at hr2
      rcases hr2 with e | e
      · exfalso
        have hb := hr.2
        simp [e] at hb
      · exact e
    have hperm2 := ih (rows.filter (fun r => !decide (r.2 = c))) hnd.2 hcov2
    rw [hmapeq]
    exact (hperm2.append_left _).trans (List.filter_append_perm _ rows)

theorem render_partition {α : Type} (rows : List (Row α)) (cc : List (Label × Color)) :
    (((renderClassColored rows cc).scatters.map Prod.fst).flatten).Perm
      (rows.map Prod.fst) := by
  rw [renderClassColored_eq]
  simp only [List.map_map]
  have h1 : ((uniqueFirst (rows.map Prod.snd)).map
      (Prod.fst ∘ fun c => ((rows.filter (fun r => r.2 = c)).map Prod.fst,
        (List.lookup c cc).getD grayColor))) =
      ((uniqueFirst (rows.map Prod.snd)).map
        (fun c => rows.filter (fun r => r.2 = c))).map (List.map Prod.fst) := by
    rw [List.map_map]
    rfl
  rw [h1, ← List.map_flatten]
  exact (filters_flatten_perm (uniqueFirst (rows.map Prod.snd)) rows
    (nodup_uniqueFirst _)
    (fun r hr => (mem_uniqueFirst _ _).mpr (List.mem_map_of_mem Prod.snd hr))).map Prod.fst

theorem render_legend_labels {α : Type} (rows : List (Row α)) (cc : List (Label × Color))
    (h : "Other" ∉ rows.map Prod.snd) :
    ((renderClassColored rows cc).legend.map Prod.fst).Nodup ∧
      (∀ c, (List.lookup c cc).isSome = true → c ∈ rows.map Prod.snd →
        c ∈ (renderClassColored rows cc).legend.map Prod.fst) := by
  rw [renderClassColored_eq]
  simp only [List.map_append]
  have hid : (Prod.fst ∘ fun x : Label => (x, (List.lookup x cc).getD grayColor)) =
      fun x : Label => x := rfl
  constructor
  · rw [List.map_map, hid]
    rw [show ((uniqueFirst (rows.map Prod.snd)).filter
      (fun c => (List.lookup c cc).isSome)).map (fun x : Label => x) =
      (uniqueFirst (rows.map Prod.snd)).filter
        (fun c => (List.lookup c cc).isSome) from List.map_id _]
    apply List.Nodup.append
    · exact (nodup_uniqueFirst _).filter _
    · by_cases hany :
        (uniqueFirst (rows.map Prod.snd)).any fun c => (List.lookup c cc).isNone
      · simp [hany]
      · simp [hany]
    · intro a ha hb
      have haO : a = "Other" := by
        by_cases hany :
          (uniqueFirst (rows.map Prod.snd)).any fun c => (List.lookup c cc).isNone
        · simpa [hany] using hb
        · simp [hany] at hb
      subst haO
      exact h ((mem_uniqueFirst _ _).mp (List.mem_of_mem_filter ha))
  · intro c hc hmem
    rw [List.mem_append]
    left
    rw [List.map_map, hid]
    rw [show ((uniqueFirst (rows.map Prod.snd)).filter
      (fun c => (List.lookup c cc).isSome)).map (fun x : Label => x) =
      (uniqueFirst (rows.map Prod.snd)).filter
        (fun c => (List.lookup c cc).isSome) from List.map_id _]
    exact List.mem_filter.mpr ⟨(mem_uniqueFirst _ _).mpr hmem, hc⟩

/-! ## Helper lemmas for Part 3: table construction -/

theorem mkRows_eq {α : Type} (coords : List (List α)) (labels : List Label)
    (h : coords.length = labels.length) :
    mkRows coords labels = some (coords.zip labels) := by
  simp [mkRows, h]

theorem zip_map_snd_eq {α : Type} (coords : List (List α)) (labels : List Label)
    (h : coords.length = labels.length) :
    (coords.zip labels).map Prod.snd = labels :=
  List.map_snd_zip _ _ (le_of_eq h.symm)

theorem zip_length_eq {α : Type} (coords : List (List α)) (labels : List Label)
    (h : coords.length = labels.length) :
    (coords.zip labels).length = labels.length := by
  rw [List.length_zip, h, Nat.min_self]

theorem show_other_core {α : Type} (coords : List (List α)) (labels : List Label)
    (cc : List (Label × Color)) (hlen : coords.length = labels.length)
    (hO : "Other" ∉ labels) :
    ("Other" ∈ (renderClassColored (coords.zip labels) cc).legend.map Prod.fst) ↔
      ∃ l ∈ labels, List.lookup l cc = none := by
  have hsnd := zip_map_snd_eq coords labels hlen
  rw [render_other_iff _ cc (by rw [hsnd]; exact hO), hsnd]

theorem show_partition_core {α : Type} (coords : List (List α)) (labels : List Label)
    (cc : List (Label × Color)) (hlen : coords.length = labels.length)
    (hO : "Other" ∉ labels) :
    (((renderClassColored (coords.zip labels) cc).scatters.map Prod.fst).flatten).Perm
        ((coords.zip labels).map Prod.fst) ∧
      ((renderClassColored (coords.zip labels) cc).legend.map Prod.fst).Nodup ∧
      (∀ c, (List.lookup c cc).isSome = true → c ∈ labels →
        c ∈ (renderClassColored (coords.zip labels) cc).legend.map Prod.fst) := by
  have hsnd := zip_map_snd_eq coords labels hlen
  have hO2 : "Other" ∉ (coords.zip labels).map Prod.snd := by
    rw [hsnd]
    exact hO
  obtain ⟨hnd, hmem⟩ := render_legend_labels (coords.zip labels) cc hO2
  refine ⟨render_partition _ cc, hnd, ?_⟩
  intro c hc hl
  refine hmem c hc ?_
  rw [hsnd]
  exact hl

/-! ## Claim theorems for the plotting functions -/

/-- Claim C2: in each class-colored show function (`show_1D_umap`,
`show_2D_umap`, `show_3D_umap`) the legend contains an `Other` entry iff at
least one label value of the metadata series is absent from the supplied
class-color map. Hypotheses: the external reducer's shape contract for each
dimensionality, and no input label is itself the literal string `Other`
(which would conflate a class's own legend entry with the fallback one). -/
theorem show_umap_other_legend_iff {α : Type}
    (umapFit : Nat → List (List α) → List (List α)) (X : List (List α))
    (labels : List Label) (seriesName : String) (cc : List (Label × Color))
    (h1 : (umapFit 1 X).length = labels.length)
    (h2 : (umapFit 2 X).length = labels.length)
    (h3 : (umapFit 3 X).length = labels.length)
    (hO : "Other" ∉ labels) :
    (∃ o, show_1D_umap umapFit X labels seriesName cc = some o ∧
        (("Other" ∈ o.render.legend.map Prod.fst) ↔
          ∃ l ∈ labels, List.lookup l cc = none)) ∧
      (∃ o, show_2D_umap umapFit X labels seriesName cc = some o ∧
        (("Other" ∈ o.render.legend.map Prod.fst) ↔
          ∃ l ∈ labels, List.lookup l cc = none)) ∧
      (∃ o, show_3D_umap umapFit X labels seriesName cc = some o ∧
        (("Other" ∈ o.render.legend.map Prod.fst) ↔
          ∃ l ∈ labels, List.lookup l cc = none)) := by
  refine ⟨⟨{ embeddingRows := (umapFit 1 X).zip labels,
             render := renderClassColored ((umapFit 1 X).zip labels) cc,
             retval := none }, ?_, show_other_core (umapFit 1 X) labels cc h1 hO⟩,
         ⟨{ embeddingRows := (umapFit 2 X).zip labels,
            render := renderClassColored ((umapFit 2 X).zip labels) cc,
            retval := some (["UMAP1", "UMAP2"] ++
              (if seriesName = "UMAP1" ∨ seriesName = "UMAP2" then [] else [seriesName]),
              (umapFit 2 X).zip labels) }, ?_,
           show_other_core (umapFit 2 X) labels cc h2 hO⟩,
         ⟨{ embeddingRows := (umapFit 3 X).zip labels,
            render := renderClassColored ((umapFit 3 X).zip labels) cc,
            retval := none }, ?_, show_other_core (umapFit 3 X) labels cc h3 hO⟩⟩
  · simp only [show_1D_umap]
    rw [mkRows_eq _ _ h1]
    rfl
  · simp only [show_2D_umap]
    rw [mkRows_eq _ _ h2]
    rfl
  · simp only [show_3D_umap]
    rw [mkRows_eq _ _ h3]
    rfl

theorem show_umap_other_legend_iff_witness :
    ("Other" ∉ (["x"] : List Label)) ∧
      (∃ o, show_2D_umap umapStub [[1]] ["x"] "Metadata_Gene" [] = some o ∧
        (("Other" ∈ o.render.legend.map Prod.fst) ↔
          ∃ l ∈ (["x"] : List Label),
            List.lookup l ([] : List (Label × Color)) = none)) :=
  ⟨by decide, (show_umap_other_legend_iff umapStub [[1]] ["x"] "Metadata_Gene" []
    (by decide) (by decide) (by decide) (by decide)).2.1⟩

/-- Claim C3, evaluated at a failing input: with labels `["b", "a"]`
(processed in that first-occurrence order) and the color map
`{"a": "#ff0000"}`, the unmapped class `b` is indeed drawn with the fixed
gray `#808080`, but the `Other` legend swatch is `#ff0000` - the mutable
`color` variable leaks the last mapped class's color - not the fixed gray
the claim asserts. -/
theorem show_umap_other_swatch_leak :
    ((show_2D_umap umapStub [[1], [2]] ["b", "a"] "pheno" [("a", "#ff0000")]).map
        (fun o => o.render)) =
      some { scatters := [([[0, 0]], "#808080"), ([[0, 0]], "#ff0000")],
             legend := [("a", "#ff0000"), ("Other", "#ff0000")] } ∧
      ("#ff0000" ≠ grayColor) := by
  decide

/-- Claim C7: every computed embedding has row count equal to the row count
of the input feature matrix, for each supported output dimensionality - the
two coordinate vectors returned by `get_2D_umap_embeddings`, and the
embedding tables built inside `show_1D_umap`, `show_2D_umap` and
`show_3D_umap`. The hypotheses are the external reducer's row-preservation
contract for each dimensionality and the matching metadata length. -/
theorem embedding_row_count_spec {α : Type} [Inhabited α]
    (umapFit : Nat → List (List α) → List (List α)) (X : List (List α))
    (labels : List Label) (seriesName : String) (cc : List (Label × Color))
    (h1 : (umapFit 1 X).length = X.length)
    (h2 : (umapFit 2 X).length = X.length)
    (h3 : (umapFit 3 X).length = X.length)
    (hlab : labels.length = X.length) :
    (get_2D_umap_embeddings umapFit X).1.length = X.length ∧
      (get_2D_umap_embeddings umapFit X).2.length = X.length ∧
      (∃ o, show_1D_umap umapFit X labels seriesName cc = some o ∧
        o.embeddingRows.length = X.length) ∧
      (∃ o, show_2D_umap umapFit X labels seriesName cc = some o ∧
        o.embeddingRows.length = X.length) ∧
      (∃ o, show_3D_umap umapFit X labels seriesName cc = some o ∧
        o.embeddingRows.length = X.length) := by
  have hx : (get_2D_umap_embeddings umapFit X).1 =
      (umapFit 2 X).map (fun row => row.getD 0 default) := rfl
  have hy : (get_2D_umap_embeddings umapFit X).2 =
      (umapFit 2 X).map (fun row => row.getD 1 default) := rfl
  have hz1 : (umapFit 1 X).length = labels.length := by rw [h1, hlab]
  have hz2 : (umapFit 2 X).length = labels.length := by rw [h2, hlab]
  have hz3 : (umapFit 3 X).length = labels.length := by rw [h3, hlab]
  refine ⟨?_, ?_,
         ⟨{ embeddingRows := (umapFit 1 X).zip labels,
            render := renderClassColored ((umapFit 1 X).zip labels) cc,
            retval := none }, ?_, ?_⟩,
         ⟨{ embeddingRows := (umapFit 2 X).zip labels,
            render := renderClassColored ((umapFit 2 X).zip labels) cc,
            retval := some (["UMAP1", "UMAP2"] ++
              (if seriesName = "UMAP1" ∨ seriesName = "UMAP2" then [] else [seriesName]),
              (umapFit 2 X).zip labels) }, ?_, ?_⟩,
         ⟨{ embeddingRows := (umapFit 3 X).zip labels,
            render := renderClassColored ((umapFit 3 X).zip labels) cc,
            retval := none }, ?_, ?_⟩⟩
  · rw [hx, List.length_map, h2]
  · rw [hy, List.length_map, h2]
  · simp only [show_1D_umap]
    rw [mkRows_eq _ _ hz1]
    rfl
  · rw [zip_length_eq _ _ hz1, hlab]
  · simp only [show_2D_umap]
    rw [mkRows_eq _ _ hz2]
    rfl
  · rw [zip_length_eq _ _ hz2, hlab]
  · simp only [show_3D_umap]
    rw [mkRows_eq _ _ hz3]
    rfl
  · rw [zip_length_eq _ _ hz3, hlab]

theorem embedding_row_count_spec_witness :
    ((umapStub 2 [[1], [2]]).length = ([[1], [2]] : List (List Nat)).length) ∧
      (get_2D_umap_embeddings umapStub [[1], [2]]).1.length = 2 :=
  ⟨by decide, by
    have h := embedding_row_count_spec umapStub [[1], [2]] ["b", "a"] "m" []
      (by decide) (by decide) (by decide) (by decide)
    simpa using h.1⟩

/-- Claim C8: the continuous-hue 2D variant `show_2D_umap_from_embeddings`
returns no value, while `show_2D_umap` returns the embedding table with
columns `UMAP1`, `UMAP2` and the metadata series name, carrying the
metadata values in the same order as the input series (hypotheses: the
reducer contract plus pandas length requirement, and a series name distinct
from the coordinate column names, as at every call site). -/
theorem show_2D_return_spec {α : Type} (umapFit : Nat → List (List α) → List (List α))
    (X : List (List α)) (labels : List Label) (seriesName : String)
    (cc : List (Label × Color)) (x_data y_data : List α)
    (h2 : (umapFit 2 X).length = labels.length)
    (hn1 : seriesName ≠ "UMAP1") (hn2 : seriesName ≠ "UMAP2") :
    show_2D_umap_from_embeddings x_data y_data labels seriesName =
        (none : Option (List String × List (Row α))) ∧
      (∃ o, show_2D_umap umapFit X labels seriesName cc = some o ∧
        o.retval = some (["UMAP1", "UMAP2", seriesName], o.embeddingRows) ∧
        o.embeddingRows.map Prod.snd = labels) := by
  refine ⟨rfl, ⟨{ embeddingRows := (umapFit 2 X).zip labels,
                  render := renderClassColored ((umapFit 2 X).zip labels) cc,
                  retval := some (["UMAP1", "UMAP2"] ++
                    (if seriesName = "UMAP1" ∨ seriesName = "UMAP2" then []
                      else [seriesName]),
                    (umapFit 2 X).zip labels) }, ?_, ?_, zip_map_snd_eq _ _ h2⟩⟩
  · simp only [show_2D_umap]
    rw [mkRows_eq _ _ h2]
    rfl
  · have hcond : ¬(seriesName = "UMAP1" ∨ seriesName = "UMAP2") := by
      rintro (e | e)
      exacts [hn1 e, hn2 e]
    simp [hcond]

theorem show_2D_return_spec_witness :
    ("Metadata_Gene" ≠ "UMAP1") ∧
      (∃ o, show_2D_umap umapStub [[1]] ["x"] "Metadata_Gene" [] = some o ∧
        o.retval = some (["UMAP1", "UMAP2", "Metadata_Gene"], o.embeddingRows) ∧
        o.embeddingRows.map Prod.snd = ["x"]) :=
  ⟨by decide, (show_2D_return_spec umapStub [[1]] ["x"] "Metadata_Gene" [] [] []
    (by decide) (by decide) (by decide)).2⟩

/-- Claim C10: in each class-colored show function the per-class loop
partitions the embedding rows - the scatter calls' point lists together are
a permutation of all input observations, so each observation is drawn in
exactly one scatter call - and each mapped class present in the data
contributes exactly one legend entry (the legend labels are distinct and
contain every such class). The `Other` hypothesis rules out a class
literally named like the fallback entry. -/
theorem show_umap_partition_spec {α : Type}
    (umapFit : Nat → List (List α) → List (List α)) (X : List (List α))
    (labels : List Label) (seriesName : String) (cc : List (Label × Color))
    (h1 : (umapFit 1 X).length = labels.length)
    (h2 : (umapFit 2 X).length = labels.length)
    (h3 : (umapFit 3 X).length = labels.length)
    (hO : "Other" ∉ labels) :
    (∃ o, show_1D_umap umapFit X labels seriesName cc = some o ∧
        ((o.render.scatters.map Prod.fst).flatten).Perm (o.embeddingRows.map Prod.fst) ∧
        (o.render.legend.map Prod.fst).Nodup ∧
        (∀ c, (List.lookup c cc).isSome = true → c ∈ labels →
          c ∈ o.render.legend.map Prod.fst)) ∧
      (∃ o, show_2D_umap umapFit X labels seriesName cc = some o ∧
        ((o.render.scatters.map Prod.fst).flatten).Perm (o.embeddingRows.map Prod.fst) ∧
        (o.render.legend.map Prod.fst).Nodup ∧
        (∀ c, (List.lookup c cc).isSome = true → c ∈ labels →
          c ∈ o.render.legend.map Prod.fst)) ∧
      (∃ o, show_3D_umap umapFit X labels seriesName cc = some o ∧
        ((o.render.scatters.map Prod.fst).flatten).Perm (o.embeddingRows.map Prod.fst) ∧
        (o.render.legend.map Prod.fst).Nodup ∧
        (∀ c, (List.lookup c cc).isSome = true → c ∈ labels →
          c ∈ o.render.legend.map Prod.fst)) := by
  refine ⟨⟨{ embeddingRows := (umapFit 1 X).zip labels,
             render := renderClassColored ((umapFit 1 X).zip labels) cc,
             retval := none }, ?_, show_partition_core (umapFit 1 X) labels cc h1 hO⟩,
         ⟨{ embeddingRows := (umapFit 2 X).zip labels,
            render := renderClassColored ((umapFit 2 X).zip labels) cc,
            retval := some (["UMAP1", "UMAP2"] ++
              (if seriesName = "UMAP1" ∨ seriesName = "UMAP2" then [] else [seriesName]),
              (umapFit 2 X).zip labels) }, ?_,
           show_partition_core (umapFit 2 X) labels cc h2 hO⟩,
         ⟨{ embeddingRows := (umapFit 3 X).zip labels,
            render := renderClassColored ((umapFit 3 X).zip labels) cc,
            retval := none }, ?_, show_partition_core (umapFit 3 X) labels cc h3 hO⟩⟩
  · simp only [show_1D_umap]
    rw [mkRows_eq _ _ h1]
    rfl
  · simp only [show_2D_umap]
    rw [mkRows_eq _ _ h2]
    rfl
  · simp only [show_3D_umap]
    rw [mkRows_eq _ _ h3]
    rfl

theorem show_umap_partition_spec_witness :
    ("Other" ∉ (["b", "a"] : List Label)) ∧
      (∃ o, show_2D_umap umapStub [[1], [2]] ["b", "a"] "Metadata_Gene"
          [("a", "#ff0000")] = some o ∧
        ((o.render.scatters.map Prod.fst).flatten).Perm (o.embeddingRows.map Prod.fst) ∧
        (o.render.legend.map Prod.fst).Nodup ∧
        (∀ c, (List.lookup c [("a", "#ff0000")]).isSome = true →
          c ∈ (["b", "a"] : List Label) → c ∈ o.render.legend.map Prod.fst)) :=
  ⟨by decide, (show_umap_partition_spec umapStub [[1], [2]] ["b", "a"] "Metadata_Gene"
    [("a", "#ff0000")] (by decide) (by decide) (by decide) (by decide)).2.1⟩
